import Mathlib

set_option maxRecDepth 4000

/-!
Shallow embedding of the broadcast node of `src/src/bin/broadcast.rs`.

Rust `HashSet<i64>` / `HashSet<String>` are embedded as duplicate-free lists,
`HashMap<K, V>` as association lists with duplicate-free keys; iteration
order, unspecified for the Rust hash containers, is the list order.
`i64` ids are embedded as `Int` (the counters in play stay far from the
64-bit boundary and the source performs no wrapping arithmetic).
-/

deriving instance DecidableEq for Except

/-- Payload variants of the broadcast protocol
(`enum BroadcastMessage` in `src/src/bin/broadcast.rs`). -/
inductive BroadcastMessage where
  | Init (node_id : String) (node_ids : List String)
  | InitOk
  | Broadcast (message : Int)
  | BroadcastOk
  | Read
  | ReadOk (messages : List Int)
  | Topology (topology : List (String × List String))
  | TopologyOk
deriving DecidableEq

/-- `struct Body` of the envelope: local msg id, correlation id, payload. -/
structure Body where
  msg_id : Option Int
  in_reply_to : Option Int
  body : BroadcastMessage
deriving DecidableEq

/-- `struct Message`: the envelope `{src, dest, body}`. -/
structure Message where
  src : Option String
  dest : Option String
  body : Body
deriving DecidableEq

/-- `struct BroadcastMaelstromNode`: the node state. -/
structure BroadcastMaelstromNode where
  id : Int
  messages : List Int
  messages_shared_per_node : List (String × List Int)
  node_id : Option String
  node_ids : List String
deriving DecidableEq

/-- `src.starts_with('n')` from the source: the first character is `'n'`. -/
def startsN (s : String) : Bool := s.data.head? == some 'n'

/-- `HashSet::insert` on the list model: append `v` if absent. -/
def insertSet (s : List Int) (v : Int) : List Int :=
  if v ∈ s then s else s ++ [v]

/-- `map.entry(k).or_default().insert(v)` on the association-list model. -/
def updateShared : List (String × List Int) → String → Int → List (String × List Int)
  | [], k, v => [(k, [v])]
  | (k', s) :: rest, k, v =>
    if k' = k then (k', insertSet s v) :: rest else (k', s) :: updateShared rest k v

/-- `HashMap::get` on the association-list model of the per-peer-seen map. -/
def lookupShared : List (String × List Int) → String → Option (List Int)
  | [], _ => none
  | (k', s) :: rest, k => if k' = k then some s else lookupShared rest k

/-- `topology.get(node)` on the association-list model of the topology map. -/
def lookupTopo : List (String × List String) → String → Option (List String)
  | [], _ => none
  | (k', s) :: rest, k => if k' = k then some s else lookupTopo rest k

/-- The (destination, value) pairs produced by the iterator chain of
`broadcast_all_seen_messages`: for each tracked peer, the delivered values
the peer's seen-set lacks, except the value being processed, and only for
peers whose id starts with `'n'`. -/
def sweepPairs (shared : List (String × List Int)) (messages : List Int) (fm : Int) :
    List (String × Int) :=
  match shared with
  | [] => []
  | (node, s) :: rest =>
    (messages.filter (fun m => !(s.contains m) && !(m == fm) && startsN node)).map
        (fun m => (node, m))
      ++ sweepPairs rest messages fm

/-- The id stamping of ONE tracked peer's batch inside
`broadcast_all_seen_messages`: the inner `.map(move |...| ...)` closure
(broadcast.rs:208) holds its own copy of `counter`, advanced once per
envelope it emits, so the k-th envelope of the batch gets msg_id `c + k`. -/
def numberPairs (nid : Option String) : Int → List (String × Int) → List Message
  | _, [] => []
  | c, (node, m) :: rest =>
    ⟨nid, some node, ⟨some c, none, BroadcastMessage.Broadcast m⟩⟩ ::
      numberPairs nid (c + 1) rest

/-- The per-peer batches of `broadcast_all_seen_messages`, concatenated in
map-iteration order. `counter` at broadcast.rs:195 is an `i64` (a `Copy`
type), and the `move` map closure at line 208 captures it by copy, so the
`counter += 1` at line 220 advances only that batch's private copy: each
tracked peer's batch starts numbering afresh at `c` (the node counter's
value when the sweep started), and the outer `counter` is never written. -/
def sweepMsgs (nid : Option String) (c : Int) (messages : List Int) (fm : Int) :
    List (String × List Int) → List Message
  | [] => []
  | (node, s) :: rest =>
    numberPairs nid c
      ((messages.filter (fun m => !(s.contains m) && !(m == fm) && startsN node)).map
        (fun m => (node, m)))
      ++ sweepMsgs nid c messages fm rest

/-- `fn broadcast_all_seen_messages` (src/src/bin/broadcast.rs:191-225). -/
def broadcast_all_seen_messages (p : BroadcastMaelstromNode) (filter_message : Int) :
    List Message :=
  sweepMsgs p.node_id p.id p.messages filter_message p.messages_shared_per_node

/-- `BroadcastMaelstromNode::process` (src/src/bin/broadcast.rs:67-189).
The Rust signature is `&mut self → Result<Option<Vec<Message>>>`; here the
post-state is returned alongside the result, and the `anyhow!` error value
(which formats the offending envelope) is embedded as that envelope. -/
def process (n : BroadcastMaelstromNode) (msg : Message) :
    BroadcastMaelstromNode × Except Message (Option (List Message)) :=
  match msg.body.body with
  | .Init node_id node_ids =>
    ({ n with id := n.id + 1, node_id := some node_id,
              node_ids := node_ids.filter (fun x => !(x == node_id)) },
     Except.ok (some [⟨msg.dest, msg.src, ⟨some n.id, msg.body.msg_id, .InitOk⟩⟩]))
  | .Broadcast message =>
    let ack : Message := ⟨msg.dest, msg.src, ⟨some n.id, msg.body.msg_id, .BroadcastOk⟩⟩
    let n1 := { n with id := n.id + 1 }
    let n2 := match msg.src with
      | some src =>
        if startsN src then
          { n1 with messages_shared_per_node :=
              updateShared n1.messages_shared_per_node src message }
        else n1
      | none => n1
    let prev := broadcast_all_seen_messages n2 message
    let n3 := { n2 with id := n2.id + (prev.length : Int) }
    if message ∈ n3.messages then
      (n3, Except.ok (some ([ack] ++ prev)))
    else
      let fan := n3.node_ids.filterMap (fun d =>
        match msg.src with
        | some src =>
          if !(src == d) then
            some (⟨n3.node_id, some d, ⟨msg.body.msg_id, none, .Broadcast message⟩⟩ : Message)
          else none
        | none => none)
      ({ n3 with messages := n3.messages ++ [message] },
       Except.ok (some ([ack] ++ fan ++ prev)))
  | .Read =>
    ({ n with id := n.id + 1 },
     Except.ok (some [⟨msg.dest, msg.src, ⟨some n.id, msg.body.msg_id, .ReadOk n.messages⟩⟩]))
  | .Topology topology =>
    let n' := match n.node_id with
      | some node =>
        match lookupTopo topology node with
        | some node_ids => { n with node_ids := node_ids }
        | none => n
      | none => n
    ({ n' with id := n'.id + 1 },
     Except.ok (some [⟨msg.dest, msg.src, ⟨some n.id, msg.body.msg_id, .TopologyOk⟩⟩]))
  | _ => (n, Except.error msg)

/-- The seen-map update step of the Broadcast arm (lines 105-115): record
the sender as having seen the value, but only for senders whose id starts
with `'n'` (network peers, not seed/client senders). -/
def seenUpd (st : BroadcastMaelstromNode) (src : Option String) (v : Int) :
    BroadcastMaelstromNode :=
  match src with
  | some s =>
    if startsN s then
      { st with messages_shared_per_node := updateShared st.messages_shared_per_node s v }
    else st
  | none => st

/-- The fanout batch of the Broadcast arm (lines 126-141): one `Broadcast
v` envelope per neighbor other than the sender, carrying the inbound
msg_id and no in_reply_to; nothing at all when the envelope has no src. -/
def fanFor (st : BroadcastMaelstromNode) (src : Option String) (mid : Option Int) (v : Int) :
    List Message :=
  st.node_ids.filterMap (fun d =>
    match src with
    | some s =>
      if !(s == d) then
        some (⟨st.node_id, some d, ⟨mid, none, .Broadcast v⟩⟩ : Message)
      else none
    | none => none)

/-- `BroadcastMaelstromNode::default()`: `new(1, None, {}, {}, {})`. -/
def node0 : BroadcastMaelstromNode := ⟨1, [], [], none, []⟩

/-- Folding `process` over a sequence of inbound envelopes, keeping the
state (the transport loop delivers envelopes one at a time in order). -/
def processSeq (st : BroadcastMaelstromNode) (msgs : List Message) : BroadcastMaelstromNode :=
  msgs.foldl (fun s m => (process s m).fst) st

/-- `[some a, some (a+1), ..., some (a+k-1)]`: k consecutive assigned ids
starting at `a`. -/
def consecIds : Int → Nat → List (Option Int)
  | _, 0 => []
  | a, k + 1 => some a :: consecIds (a + 1) k

/-- Number of envelopes in `out` that are addressed to `P` and carry the
payload `Broadcast val`. -/
def countTo (out : List Message) (P : String) (val : Int) : Nat :=
  (out.filter (fun o =>
    o.dest == some P && o.body.body == BroadcastMessage.Broadcast val)).length

/-- An outbound envelope of the handler of inbound `inb` is a fanout
envelope exactly when it re-broadcasts the value being processed (the
anti-entropy batch never carries that value, and the acknowledgement is a
`BroadcastOk`). -/
def isFanoutOf (inb : Message) (o : Message) : Bool :=
  match inb.body.body with
  | .Broadcast v => o.body.body == BroadcastMessage.Broadcast v
  | _ => false

/-- The msg_ids of the outbound envelopes of `out` that draw on the node's
id counter (every outbound envelope except the fanout ones), in emission
order. -/
def counterIds (inb : Message) (out : List Message) : List (Option Int) :=
  (out.filter (fun o => !(isFanoutOf inb o))).map (fun o => o.body.msg_id)

/-- The outbound envelopes of one `process` call (none on error). -/
def outOf (st : BroadcastMaelstromNode) (msg : Message) : List Message :=
  match (process st msg).snd with
  | Except.ok (some out) => out
  | _ => []

/-- All counter-drawn msg_ids over a sequence of processed envelopes, in
emission order. -/
def counterIdsSeq : BroadcastMaelstromNode → List Message → List (Option Int)
  | _, [] => []
  | st, m :: rest => counterIds m (outOf st m) ++ counterIdsSeq (process st m).fst rest

/-- The neighbor set does not contain the node's own id. -/
def noSelfB (st : BroadcastMaelstromNode) : Bool :=
  match st.node_id with
  | none => true
  | some nid => !(st.node_ids.contains nid)

/-- The payload variants the `process` match handles (all others fall to
the `_ => Err(...)` arm). -/
def handledB : BroadcastMessage → Bool
  | .Init _ _ => true
  | .Broadcast _ => true
  | .Read => true
  | .Topology _ => true
  | _ => false

/-- JSON values, for the wire representation of envelopes. -/
inductive Json where
  | jnull : Json
  | jnum : Int → Json
  | jstr : String → Json
  | jarr : List Json → Json
  | jobj : List (String × Json) → Json

/-- First-match field lookup in a JSON object. -/
def jlookup : List (String × Json) → String → Option Json
  | [], _ => none
  | (k, v) :: rest, key => if k = key then some v else jlookup rest key

/-- Modelled from the spec: the serde-derived wire encoding is not under
`src/` (it is generated by `#[derive(Serialize)]` with `#[serde(tag =
"type")]` and `#[serde(rename_all = "snake_case")]`); per the spec's wire
table, a payload is a flattened object discriminated by a `type` tag, an
absent optional is `null`, and sets/maps are arrays/objects. -/
def encodePayload : BroadcastMessage → List (String × Json)
  | .Init nid nids =>
    [("type", Json.jstr "init"), ("node_id", Json.jstr nid),
     ("node_ids", Json.jarr (nids.map Json.jstr))]
  | .InitOk => [("type", Json.jstr "init_ok")]
  | .Broadcast m => [("type", Json.jstr "broadcast"), ("message", Json.jnum m)]
  | .BroadcastOk => [("type", Json.jstr "broadcast_ok")]
  | .Read => [("type", Json.jstr "read")]
  | .ReadOk msgs =>
    [("type", Json.jstr "read_ok"), ("messages", Json.jarr (msgs.map Json.jnum))]
  | .Topology topo =>
    [("type", Json.jstr "topology"),
     ("topology", Json.jobj (topo.map (fun e => (e.fst, Json.jarr (e.snd.map Json.jstr)))))]
  | .TopologyOk => [("type", Json.jstr "topology_ok")]

/-- Modelled from the spec: optional integer fields encode as `null` or a
number. -/
def encodeOptInt : Option Int → Json
  | none => Json.jnull
  | some n => Json.jnum n

/-- Modelled from the spec: optional string fields encode as `null` or a
string. -/
def encodeOptStr : Option String → Json
  | none => Json.jnull
  | some s => Json.jstr s

/-- Modelled from the spec: `Body {msg_id, in_reply_to, <flattened payload>}`. -/
def encodeBody (b : Body) : Json :=
  Json.jobj ([("msg_id", encodeOptInt b.msg_id),
              ("in_reply_to", encodeOptInt b.in_reply_to)] ++ encodePayload b.body)

/-- Modelled from the spec: `Envelope {src, dest, body}`. -/
def encodeMsg (m : Message) : Json :=
  Json.jobj [("src", encodeOptStr m.src), ("dest", encodeOptStr m.dest),
             ("body", encodeBody m.body)]

/-- Modelled from the spec: decoder for optional integer fields. -/
def decodeOptInt : Json → Option (Option Int)
  | Json.jnull => some none
  | Json.jnum n => some (some n)
  | _ => none

/-- Modelled from the spec: decoder for optional string fields. -/
def decodeOptStr : Json → Option (Option String)
  | Json.jnull => some none
  | Json.jstr s => some (some s)
  | _ => none

/-- Modelled from the spec: decoder for an array of strings. -/
def decodeStrs : List Json → Option (List String)
  | [] => some []
  | Json.jstr s :: rest => (decodeStrs rest).map (fun l => s :: l)
  | _ => none

/-- Modelled from the spec: decoder for an array of integers. -/
def decodeInts : List Json → Option (List Int)
  | [] => some []
  | Json.jnum n :: rest => (decodeInts rest).map (fun l => n :: l)
  | _ => none

/-- Modelled from the spec: decoder for the topology object (string keys,
string-array values). -/
def decodeTopoEntries : List (String × Json) → Option (List (String × List String))
  | [] => some []
  | (k, Json.jarr xs) :: rest =>
    match decodeStrs xs, decodeTopoEntries rest with
    | some l, some r => some ((k, l) :: r)
    | _, _ => none
  | _ => none

/-- Modelled from the spec: the tag-discriminated payload decoder. -/
def decodePayload (fs : List (String × Json)) : Option BroadcastMessage :=
  match jlookup fs "type" with
  | some (Json.jstr t) =>
    match t with
    | "init" =>
      match jlookup fs "node_id", jlookup fs "node_ids" with
      | some (Json.jstr nid), some (Json.jarr xs) =>
        (decodeStrs xs).map (fun l => BroadcastMessage.Init nid l)
      | _, _ => none
    | "init_ok" => some BroadcastMessage.InitOk
    | "broadcast" =>
      match jlookup fs "message" with
      | some (Json.jnum m) => some (BroadcastMessage.Broadcast m)
      | _ => none
    | "broadcast_ok" => some BroadcastMessage.BroadcastOk
    | "read" => some BroadcastMessage.Read
    | "read_ok" =>
      match jlookup fs "messages" with
      | some (Json.jarr xs) => (decodeInts xs).map (fun l => BroadcastMessage.ReadOk l)
      | _ => none
    | "topology" =>
      match jlookup fs "topology" with
      | some (Json.jobj es) => (decodeTopoEntries es).map (fun l => BroadcastMessage.Topology l)
      | _ => none
    | "topology_ok" => some BroadcastMessage.TopologyOk
    | _ => none
  | _ => none

/-- Modelled from the spec: body decoder (a missing optional decodes as
absent, like serde's treatment of `Option` fields). -/
def decodeBody (j : Json) : Option Body :=
  match j with
  | Json.jobj fs =>
    match decodeOptInt ((jlookup fs "msg_id").getD Json.jnull),
          decodeOptInt ((jlookup fs "in_reply_to").getD Json.jnull),
          decodePayload fs with
    | some mid, some irt, some b => some ⟨mid, irt, b⟩
    | _, _, _ => none
  | _ => none

/-- Modelled from the spec: envelope decoder. -/
def decodeMsg (j : Json) : Option Message :=
  match j with
  | Json.jobj fs =>
    match decodeOptStr ((jlookup fs "src").getD Json.jnull),
          decodeOptStr ((jlookup fs "dest").getD Json.jnull),
          (jlookup fs "body").bind decodeBody with
    | some s, some d, some b => some ⟨s, d, b⟩
    | _, _, _ => none
  | _ => none

/-- Concrete state for the C1 counterexample: counter at 1, empty
delivered set, one known neighbor "n3". -/
def c1State : BroadcastMaelstromNode := ⟨1, [], [], some "n1", ["n3"]⟩

/-- Concrete inbound envelope for the C1 counterexample: `Broadcast 5`
from peer "n2" with inbound msg_id 42. -/
def c1Msg : Message := ⟨some "n2", some "n1", ⟨some 42, none, .Broadcast 5⟩⟩

/-- The two outbound envelopes `process c1State c1Msg` produces: the ack
(counter id 1) and the fanout to "n3" carrying the inbound msg_id 42. -/
def c1Out : List Message :=
  [⟨some "n1", some "n2", ⟨some 1, some 42, .BroadcastOk⟩⟩,
   ⟨some "n1", some "n3", ⟨some 42, none, .Broadcast 5⟩⟩]

/-- The post-state of `process c1State c1Msg`. -/
def c1PostState : BroadcastMaelstromNode := ⟨2, [5], [("n2", [5])], some "n1", ["n3"]⟩

/-- The msg_ids of the sweep envelopes addressed to peer `P`, in emission
order. -/
def sweepIdsTo (p : BroadcastMaelstromNode) (fm : Int) (P : String) : List (Option Int) :=
  ((broadcast_all_seen_messages p fm).filter (fun o => o.dest == some P)).map
    (fun o => o.body.msg_id)

/-- A state whose sweep covers two tracked peers, each owed one value:
the real program stamps both batches with the same restarting id. -/
def c1SweepState : BroadcastMaelstromNode :=
  ⟨5, [10, 20], [("n2", [20]), ("n3", [10])], some "n1", []⟩

/-- `Init {node_id:"n1", node_ids:["n1","n2","n3"]}` from a client. -/
def mInit : Message := ⟨some "c0", some "n1", ⟨some 1, none, .Init "n1" ["n1", "n2", "n3"]⟩⟩

/-- `Broadcast 3` from a client (seed sender, not a network peer). -/
def mB1 : Message := ⟨some "c1", some "n1", ⟨some 2, none, .Broadcast 3⟩⟩

/-- `Broadcast 5` from peer "n2" with inbound msg_id 9. -/
def mB2 : Message := ⟨some "n2", some "n1", ⟨some 9, none, .Broadcast 5⟩⟩

/-- Init envelope whose node_ids contain the node itself. -/
def c6Init : Message := ⟨some "c0", some "n1", ⟨some 1, none, .Init "n1" ["n1"]⟩⟩

/-- Topology envelope mapping "n1" to a neighbor set containing "n1". -/
def c6Topo : Message := ⟨some "c0", some "n1", ⟨some 2, none, .Topology [("n1", ["n1"])]⟩⟩

/-- The state after processing `c6Init` from the default state. -/
def c6AfterInit : BroadcastMaelstromNode := ⟨2, [], [], some "n1", []⟩

/-- Concrete state for the C2 witness (the spec's anti-entropy example):
delivered set {1,2,3}, tracked peer "n2" with seen-set {1}. -/
def c2State : BroadcastMaelstromNode := ⟨10, [1, 2, 3], [("n2", [1])], some "n1", ["n2"]⟩

/-- Concrete state for the C4 witness: two neighbors, nothing delivered. -/
def c4State : BroadcastMaelstromNode := ⟨1, [], [], some "n1", ["n2", "n3"]⟩

/-- An unhandled inbound envelope (`InitOk` is reply-only). -/
def c8Msg : Message := ⟨some "dest", some "src", ⟨some 1, some 1, .InitOk⟩⟩

/-!
Sanity checks: the embedding reproduces the source's own unit tests
`test_msg_processing_broadcast_no_other_nodes` and
`test_msg_processing_broadcast_with_multi_broadcast_to_neighbors_ignoring_sender`.
-/

example :
    process node0 ⟨some "node2", some "node1", ⟨some 1, none, .Broadcast 1⟩⟩ =
      (⟨2, [1], [("node2", [1])], none, []⟩,
       Except.ok (some [⟨some "node1", some "node2", ⟨some 1, some 1, .BroadcastOk⟩⟩])) := by
  decide

example :
    process ⟨1, [], [], some "node1", ["node2", "node3"]⟩
        ⟨some "node2", some "node1", ⟨some 1, none, .Broadcast 1⟩⟩ =
      (⟨2, [1], [("node2", [1])], some "node1", ["node2", "node3"]⟩,
       Except.ok (some
         [⟨some "node1", some "node2", ⟨some 1, some 1, .BroadcastOk⟩⟩,
          ⟨some "node1", some "node3", ⟨some 1, none, .Broadcast 1⟩⟩])) := by
  decide

/-! Helper lemmas about the anti-entropy sweep. -/

theorem sweepPairs_snd_mem (shared : List (String × List Int)) (messages : List Int)
    (fm : Int) : ∀ pr ∈ sweepPairs shared messages fm,
      pr.2 ∈ messages ∧ pr.2 ≠ fm ∧ startsN pr.1 = true := by
  induction shared with
  | nil => intro pr h; cases h
  | cons e rest ih =>
    intro pr h
    obtain ⟨node, s⟩ := e
    rw [sweepPairs, List.mem_append] at h
    rcases h with h | h
    · obtain ⟨m, hm, rfl⟩ := List.mem_map.mp h
      have := List.mem_filter.mp hm
      refine ⟨this.1, ?_, ?_⟩ <;> simp_all
    · exact ih pr h

theorem numberPairs_mem (nid : Option String) :
    ∀ (ps : List (String × Int)) (c : Int) (o : Message), o ∈ numberPairs nid c ps →
      ∃ pr ∈ ps, o = ⟨nid, some pr.1, ⟨o.body.msg_id, none, .Broadcast pr.2⟩⟩ := by
  intro ps
  induction ps with
  | nil => intro c o h; cases h
  | cons pr rest ih =>
    intro c o h
    obtain ⟨node, m⟩ := pr
    rw [numberPairs, List.mem_cons] at h
    rcases h with rfl | h
    · exact ⟨(node, m), List.mem_cons_self _ _, rfl⟩
    · obtain ⟨pr', hpr', heq⟩ := ih (c + 1) o h
      exact ⟨pr', List.mem_cons_of_mem _ hpr', heq⟩

theorem numberPairs_msg_ids (nid : Option String) :
    ∀ (ps : List (String × Int)) (c : Int),
      (numberPairs nid c ps).map (fun o => o.body.msg_id) = consecIds c ps.length := by
  intro ps
  induction ps with
  | nil => intro c; rfl
  | cons pr rest ih =>
    intro c
    obtain ⟨node, m⟩ := pr
    simp only [numberPairs, List.map_cons, List.length_cons, consecIds]
    exact congrArg _ (ih (c + 1))

theorem numberPairs_length (nid : Option String) :
    ∀ (ps : List (String × Int)) (c : Int), (numberPairs nid c ps).length = ps.length := by
  intro ps
  induction ps with
  | nil => intro c; rfl
  | cons pr rest ih =>
    intro c
    obtain ⟨node, m⟩ := pr
    simp only [numberPairs, List.length_cons]
    exact congrArg _ (ih (c + 1))

theorem consecIds_length (a : Int) : ∀ (k : Nat), (consecIds a k).length = k := by
  suffices h : ∀ (k : Nat) (a : Int), (consecIds a k).length = k by intro k; exact h k a
  intro k
  induction k with
  | zero => intro a; rfl
  | succ k ih => intro a; simp only [consecIds, List.length_cons]; exact congrArg _ (ih (a + 1))

theorem mem_sweepMsgs (nid : Option String) (c : Int) (messages : List Int) (fm : Int) :
    ∀ (shared : List (String × List Int)) (o : Message), o ∈ sweepMsgs nid c messages fm shared →
      ∃ pr ∈ sweepPairs shared messages fm,
        o = ⟨nid, some pr.1, ⟨o.body.msg_id, none, .Broadcast pr.2⟩⟩ := by
  intro shared
  induction shared with
  | nil => intro o h; cases h
  | cons e rest ih =>
    intro o h
    obtain ⟨node, s⟩ := e
    rw [sweepMsgs, List.mem_append] at h
    rcases h with h | h
    · obtain ⟨pr, hpr, heq⟩ := numberPairs_mem nid _ c o h
      refine ⟨pr, ?_, heq⟩
      rw [sweepPairs, List.mem_append]
      exact Or.inl hpr
    · obtain ⟨pr, hpr, heq⟩ := ih o h
      refine ⟨pr, ?_, heq⟩
      rw [sweepPairs, List.mem_append]
      exact Or.inr hpr

theorem sweep_bodies (p : BroadcastMaelstromNode) (fm : Int) :
    ∀ o ∈ broadcast_all_seen_messages p fm,
      ∃ w, o.body.body = BroadcastMessage.Broadcast w ∧ w ≠ fm ∧ w ∈ p.messages ∧
        o.body.in_reply_to = none := by
  intro o ho
  obtain ⟨pr, hpr, heq⟩ := mem_sweepMsgs p.node_id p.id p.messages fm
    p.messages_shared_per_node o ho
  have hsnd := sweepPairs_snd_mem p.messages_shared_per_node p.messages fm pr hpr
  refine ⟨pr.2, ?_, hsnd.2.1, hsnd.1, ?_⟩ <;> rw [heq]

/-! C7: Topology handling. -/

/-- C7: processing a `Topology(topology_map)` envelope replies with exactly
one `TopologyOk` correlated to the inbound msg_id; the neighbor set is
replaced by the map's entry for `own_id` iff `own_id` is set and present as
a key, and the whole state is otherwise unchanged except the id counter. -/
theorem c7_topology_gating (st : BroadcastMaelstromNode) (src dest : Option String)
    (mid irt : Option Int) (topo : List (String × List String)) :
    process st ⟨src, dest, ⟨mid, irt, .Topology topo⟩⟩ =
      ({ st with
           id := st.id + 1,
           node_ids :=
             match st.node_id with
             | none => st.node_ids
             | some nid => (lookupTopo topo nid).getD st.node_ids },
       Except.ok (some [⟨dest, src, ⟨some st.id, mid, .TopologyOk⟩⟩])) := by
  obtain ⟨i, ms, sh, nid, nids⟩ := st
  cases nid with
  | none => rfl
  | some x => cases h : lookupTopo topo x <;> simp [process, h]

/-! C8: unhandled payload variants. -/

/-- C8: an inbound envelope whose payload is not one of the handled
variants makes `process` fail with an error carrying the offending
envelope, with no outbound envelopes and the state unchanged. -/
theorem c8_unhandled_is_error (st : BroadcastMaelstromNode) (msg : Message)
    (h : handledB msg.body.body = false) :
    process st msg = (st, Except.error msg) := by
  obtain ⟨src, dest, bd⟩ := msg
  obtain ⟨mid, irt, b⟩ := bd
  cases b <;> first
    | rfl
    | simp [handledB] at h

/-- Witness for C8 at the reply-only variant `InitOk`. -/
theorem c8_unhandled_is_error_witness :
    process node0 c8Msg = (node0, Except.error c8Msg) :=
  c8_unhandled_is_error node0 c8Msg (by decide)

/-! C1 and C5 counterexamples, C6 counterexample. -/

/-- C1 fails as stated: processing `c1Msg` (a novel `Broadcast 5` from
"n2", inbound msg_id 42) produces M = 2 outbound envelopes, but their
msg_ids are `[1, 42]`, not the 2 consecutive integers `[1, 2]` from the
pre-call counter value 1: the fanout envelope copies the inbound msg_id
and consumes no id from the counter (the counter ends at 2, not 3). -/
theorem c1_counterexample :
    process c1State c1Msg =
      (⟨2, [5], [("n2", [5])], some "n1", ["n3"]⟩, Except.ok (some c1Out)) ∧
    c1Out.map (fun o => o.body.msg_id) = [some 1, some 42] ∧
    c1Out.map (fun o => o.body.msg_id) ≠ consecIds c1State.id c1Out.length := by
  decide

/-- C5 fails as stated: on `mB2` (novel `Broadcast 5` from "n2", with
peer "n2" tracked and value 3 pending for it), the outbound order is ack,
then the fanout envelope (`Broadcast 5` to "n3"), then the anti-entropy
catch-up (`Broadcast 3` to "n2") — the fanout precedes the anti-entropy
batch, not the other way around. -/
theorem c5_counterexample :
    process (processSeq node0 [mInit, mB1]) mB2 =
      (⟨5, [3, 5], [("n2", [5])], some "n1", ["n2", "n3"]⟩,
       Except.ok (some [⟨some "n1", some "n2", ⟨some 3, some 9, .BroadcastOk⟩⟩,
                        ⟨some "n1", some "n3", ⟨some 9, none, .Broadcast 5⟩⟩,
                        ⟨some "n1", some "n2", ⟨some 4, none, .Broadcast 3⟩⟩])) ∧
    isFanoutOf mB2 ⟨some "n1", some "n3", ⟨some 9, none, .Broadcast 5⟩⟩ = true ∧
    isFanoutOf mB2 ⟨some "n1", some "n2", ⟨some 4, none, .Broadcast 3⟩⟩ = false := by
  decide

/-- C6 fails as stated: after `Init {node_id:"n1", node_ids:["n1"]}` and
`Topology {"n1": ["n1"]}` — a reachable state — the node's own id "n1" is
in the neighbor set, because the Topology arm installs the map entry
verbatim without removing the node itself. -/
theorem c6_counterexample :
    (processSeq node0 [c6Init, c6Topo]).node_id = some "n1" ∧
    "n1" ∈ (processSeq node0 [c6Init, c6Topo]).node_ids ∧
    noSelfB (processSeq node0 [c6Init, c6Topo]) = false := by
  decide

/-! Structural equation for the Broadcast arm, used by several proofs. -/

theorem process_broadcast_arm (st : BroadcastMaelstromNode) (src dest : Option String)
    (mid irt : Option Int) (v : Int) :
    process st ⟨src, dest, ⟨mid, irt, .Broadcast v⟩⟩ =
      (let n2 := seenUpd { st with id := st.id + 1 } src v
       let prev := broadcast_all_seen_messages n2 v
       if v ∈ st.messages then
         ({ n2 with id := n2.id + (prev.length : Int) },
          Except.ok (some (⟨dest, src, ⟨some st.id, mid, .BroadcastOk⟩⟩ :: prev)))
       else
         ({ n2 with id := n2.id + (prev.length : Int), messages := st.messages ++ [v] },
          Except.ok (some (⟨dest, src, ⟨some st.id, mid, .BroadcastOk⟩⟩ ::
            (fanFor st src mid v ++ prev))))) := by
  cases src with
  | none => by_cases hv : v ∈ st.messages <;> simp [process, seenUpd, fanFor, hv]
  | some s =>
    by_cases hn : startsN s <;> by_cases hv : v ∈ st.messages <;>
      simp [process, seenUpd, fanFor, hn, hv]

theorem fanFor_none (st : BroadcastMaelstromNode) (mid : Option Int) (v : Int) :
    fanFor st none mid v = [] := by
  simp [fanFor]

theorem seenUpd_messages (st : BroadcastMaelstromNode) (src : Option String) (v : Int) :
    (seenUpd st src v).messages = st.messages := by
  cases src with
  | none => rfl
  | some s => by_cases hn : startsN s <;> simp [seenUpd, hn]

theorem seenUpd_id (st : BroadcastMaelstromNode) (src : Option String) (v : Int) :
    (seenUpd st src v).id = st.id := by
  cases src with
  | none => rfl
  | some s => by_cases hn : startsN s <;> simp [seenUpd, hn]

theorem seenUpd_node_id (st : BroadcastMaelstromNode) (src : Option String) (v : Int) :
    (seenUpd st src v).node_id = st.node_id := by
  cases src with
  | none => rfl
  | some s => by_cases hn : startsN s <;> simp [seenUpd, hn]

theorem seenUpd_node_ids (st : BroadcastMaelstromNode) (src : Option String) (v : Int) :
    (seenUpd st src v).node_ids = st.node_ids := by
  cases src with
  | none => rfl
  | some s => by_cases hn : startsN s <;> simp [seenUpd, hn]

/-! C10: Broadcast envelopes with no src. -/

/-- C10: a `Broadcast(v)` envelope with absent src still gets its
`BroadcastOk` ack and the anti-entropy batch, but the per-peer-seen map is
untouched and no fanout envelope is emitted (the sweep never carries `v`),
even when `v` is novel and neighbors exist. -/
theorem c10_broadcast_without_src (st : BroadcastMaelstromNode) (dest : Option String)
    (mid irt : Option Int) (v : Int) :
    process st ⟨none, dest, ⟨mid, irt, .Broadcast v⟩⟩ =
      ({ st with
           id := st.id + 1 +
             ((broadcast_all_seen_messages { st with id := st.id + 1 } v).length : Int),
           messages := if v ∈ st.messages then st.messages else st.messages ++ [v] },
       Except.ok (some (⟨dest, none, ⟨some st.id, mid, .BroadcastOk⟩⟩ ::
         broadcast_all_seen_messages { st with id := st.id + 1 } v))) ∧
    ∀ o ∈ broadcast_all_seen_messages { st with id := st.id + 1 } v,
      o.body.body ≠ BroadcastMessage.Broadcast v := by
  constructor
  · rw [process_broadcast_arm]
    by_cases hv : v ∈ st.messages <;> simp [seenUpd, fanFor_none, hv]
  · intro o ho
    obtain ⟨w, hw, hne, _, _⟩ := sweep_bodies _ v o ho
    simpa [hw] using hne

/-! C6: self-exclusion of the neighbor set (amended). -/

theorem noSelfB_seenUpd (st : BroadcastMaelstromNode) (src : Option String) (v : Int) :
    noSelfB (seenUpd st src v) = noSelfB st := by
  cases src with
  | none => rfl
  | some s => by_cases hn : startsN s <;> simp [seenUpd, noSelfB, hn]

/-- C6 amended: after every Init the neighbor set excludes the node's own
id (established unconditionally, from any state); every handler other than
Topology preserves the exclusion; a Topology update that installs an entry
for this node yields a state satisfying the exclusion exactly when that
entry does not contain the node's own id (the arm installs the entry
verbatim); and a Topology update that installs nothing leaves the
exclusion status unchanged. -/
theorem c6_amended_self_exclusion :
    (∀ (st : BroadcastMaelstromNode) (src dest : Option String) (mid irt : Option Int)
       (nid : String) (nids : List String),
       noSelfB (process st ⟨src, dest, ⟨mid, irt, .Init nid nids⟩⟩).fst = true) ∧
    (∀ (st : BroadcastMaelstromNode) (m : Message),
       (∀ topo : List (String × List String),
         m.body.body ≠ BroadcastMessage.Topology topo) →
       noSelfB st = true → noSelfB (process st m).fst = true) ∧
    (∀ (st : BroadcastMaelstromNode) (src dest : Option String) (mid irt : Option Int)
       (topo : List (String × List String)) (nid : String) (nbrs : List String),
       st.node_id = some nid → lookupTopo topo nid = some nbrs →
       (noSelfB (process st ⟨src, dest, ⟨mid, irt, .Topology topo⟩⟩).fst = true ↔
         nid ∉ nbrs)) ∧
    (∀ (st : BroadcastMaelstromNode) (src dest : Option String) (mid irt : Option Int)
       (topo : List (String × List String)),
       (∀ nid, st.node_id = some nid → lookupTopo topo nid = none) →
       noSelfB (process st ⟨src, dest, ⟨mid, irt, .Topology topo⟩⟩).fst = noSelfB st) := by
  refine ⟨?_, ?_, ?_, ?_⟩
  · intro st src dest mid irt nid nids
    simp [process, noSelfB, List.mem_filter]
  · intro st m hnt hpre
    obtain ⟨src, dest, bd⟩ := m
    obtain ⟨mid, irt, b⟩ := bd
    cases b with
    | Init nid nids => simp [process, noSelfB, List.mem_filter]
    | Broadcast v =>
      rw [process_broadcast_arm]
      have hkey : noSelfB (seenUpd { st with id := st.id + 1 } src v) = true := by
        rw [noSelfB_seenUpd]; exact hpre
      by_cases hv : v ∈ st.messages <;>
        simp only [hv, if_true, if_false, ite_true, ite_false] <;> exact hkey
    | Read => exact hpre
    | Topology topo => exact absurd rfl (hnt topo)
    | InitOk => exact hpre
    | BroadcastOk => exact hpre
    | ReadOk msgs => exact hpre
    | TopologyOk => exact hpre
  · intro st src dest mid irt topo nid nbrs hsn hl
    simp [process, hsn, hl, noSelfB]
  · intro st src dest mid irt topo hno
    cases hsn : st.node_id with
    | none =>
      simp only [process, hsn]
      simp [noSelfB, hsn]
    | some nid =>
      have hl := hno nid hsn
      simp only [process, hsn, hl]
      simp [noSelfB, hsn]

/-- Witness for the amended C6, exercising all four parts: Init
establishment from the default state, Broadcast preservation, the
Topology biconditional at a self-mapping entry, and the no-entry case. -/
theorem c6_amended_self_exclusion_witness :
    noSelfB (process node0 ⟨some "c0", some "n1", ⟨some 1, none, .Init "n1" ["n1"]⟩⟩).fst =
      true ∧
    noSelfB (process node0 mB1).fst = true ∧
    (noSelfB (process c6AfterInit
        ⟨some "c0", some "n1", ⟨some 2, none, .Topology [("n1", ["n1"])]⟩⟩).fst = true ↔
      "n1" ∉ ["n1"]) ∧
    noSelfB (process c6AfterInit
        ⟨some "c0", some "n1", ⟨some 2, none, .Topology []⟩⟩).fst = noSelfB c6AfterInit :=
  ⟨c6_amended_self_exclusion.1 node0 (some "c0") (some "n1") (some 1) none "n1" ["n1"],
   c6_amended_self_exclusion.2.1 node0 mB1 (fun _ h => nomatch h) (by decide),
   c6_amended_self_exclusion.2.2.1 c6AfterInit (some "c0") (some "n1") (some 2) none
     [("n1", ["n1"])] "n1" ["n1"] (by decide) (by decide),
   c6_amended_self_exclusion.2.2.2 c6AfterInit (some "c0") (some "n1") (some 2) none []
     (fun _ _ => rfl)⟩

/-! C3: delivered-set correctness. -/

theorem mem_process_messages (st : BroadcastMaelstromNode) (m : Message) (x : Int) :
    x ∈ (process st m).fst.messages ↔
      x ∈ st.messages ∨ m.body.body = BroadcastMessage.Broadcast x := by
  obtain ⟨src, dest, bd⟩ := m
  obtain ⟨mid, irt, b⟩ := bd
  cases b with
  | Init nid nids => simp [process]
  | Broadcast v =>
    rw [process_broadcast_arm]
    by_cases hv : v ∈ st.messages <;>
      simp only [hv, if_true, if_false, ite_true, ite_false]
    · constructor
      · intro h
        exact Or.inl (by simpa [seenUpd_messages] using h)
      · rintro (h | h)
        · simpa [seenUpd_messages] using h
        · injection h with h
          show x ∈ (seenUpd { st with id := st.id + 1 } src v).messages
          rw [seenUpd_messages]
          show x ∈ st.messages
          rwa [← h]
    · show x ∈ st.messages ++ [v] ↔ _
      simp only [List.mem_append, List.mem_singleton, BroadcastMessage.Broadcast.injEq]
      constructor
      · rintro (h | rfl)
        · exact Or.inl h
        · exact Or.inr rfl
      · rintro (h | rfl)
        · exact Or.inl h
        · exact Or.inr rfl
  | Read => simp [process]
  | Topology topo =>
    cases hsn : st.node_id with
    | none => simp [process, hsn]
    | some y => cases hl : lookupTopo topo y <;> simp [process, hsn, hl]
  | InitOk => simp [process]
  | BroadcastOk => simp [process]
  | ReadOk msgs => simp [process]
  | TopologyOk => simp [process]

theorem process_messages_nodup (st : BroadcastMaelstromNode) (m : Message)
    (h : st.messages.Nodup) : (process st m).fst.messages.Nodup := by
  obtain ⟨src, dest, bd⟩ := m
  obtain ⟨mid, irt, b⟩ := bd
  cases b with
  | Init nid nids => simpa [process] using h
  | Broadcast v =>
    rw [process_broadcast_arm]
    by_cases hv : v ∈ st.messages <;>
      simp only [hv, if_true, if_false, ite_true, ite_false]
    · show ((seenUpd { st with id := st.id + 1 } src v).messages).Nodup
      rw [seenUpd_messages]
      exact h
    · show (st.messages ++ [v]).Nodup
      simp [List.nodup_append, h, hv]
  | Read => simpa [process] using h
  | Topology topo =>
    cases hsn : st.node_id with
    | none => simpa [process, hsn] using h
    | some y => cases hl : lookupTopo topo y <;> simpa [process, hsn, hl] using h
  | InitOk => simpa [process] using h
  | BroadcastOk => simpa [process] using h
  | ReadOk msgs => simpa [process] using h
  | TopologyOk => simpa [process] using h

theorem processSeq_cons (st : BroadcastMaelstromNode) (m : Message) (rest : List Message) :
    processSeq st (m :: rest) = processSeq (process st m).fst rest := rfl

theorem processSeq_mem (msgs : List Message) :
    ∀ (st : BroadcastMaelstromNode) (x : Int),
      x ∈ (processSeq st msgs).messages ↔
        x ∈ st.messages ∨ ∃ m ∈ msgs, m.body.body = BroadcastMessage.Broadcast x := by
  induction msgs with
  | nil => intro st x; simp [processSeq]
  | cons m rest ih =>
    intro st x
    rw [processSeq_cons, ih, mem_process_messages]
    simp only [List.mem_cons]
    constructor
    · rintro ((h | h) | ⟨m', hm', h⟩)
      · exact Or.inl h
      · exact Or.inr ⟨m, Or.inl rfl, h⟩
      · exact Or.inr ⟨m', Or.inr hm', h⟩
    · rintro (h | ⟨m', hm' | hm', h⟩)
      · exact Or.inl (Or.inl h)
      · exact Or.inl (Or.inr (hm' ▸ h))
      · exact Or.inr ⟨m', hm', h⟩

theorem processSeq_messages_nodup (msgs : List Message) :
    ∀ st : BroadcastMaelstromNode, st.messages.Nodup → (processSeq st msgs).messages.Nodup := by
  induction msgs with
  | nil => intro st h; exact h
  | cons m rest ih =>
    intro st h
    rw [processSeq_cons]
    exact ih _ (process_messages_nodup st m h)

/-- C3: starting from the default node, after any sequence of processed
envelopes the delivered set is exactly the set of distinct values carried
by the Broadcast envelopes of the sequence; processing never removes a
value from the delivered set; and the delivered set never holds
duplicates (re-delivery of a value is a no-op on it). -/
theorem c3_dedup_correctness :
    (∀ (msgs : List Message) (x : Int),
       x ∈ (processSeq node0 msgs).messages ↔
         ∃ m ∈ msgs, m.body.body = BroadcastMessage.Broadcast x) ∧
    (∀ (st : BroadcastMaelstromNode) (m : Message) (x : Int),
       x ∈ st.messages → x ∈ (process st m).fst.messages) ∧
    (∀ msgs : List Message, (processSeq node0 msgs).messages.Nodup) := by
  refine ⟨?_, ?_, ?_⟩
  · intro msgs x
    rw [processSeq_mem]
    simp [node0]
  · intro st m x h
    exact (mem_process_messages st m x).mpr (Or.inl h)
  · intro msgs
    exact processSeq_messages_nodup msgs node0 (by simp [node0])

/-! C5 (amended): emission order of the Broadcast handler. -/

theorem fanFor_mem (st : BroadcastMaelstromNode) (src : Option String) (mid : Option Int)
    (v : Int) : ∀ o ∈ fanFor st src mid v,
      ∃ s d, src = some s ∧ d ∈ st.node_ids ∧ s ≠ d ∧
        o = ⟨st.node_id, some d, ⟨mid, none, .Broadcast v⟩⟩ := by
  intro o ho
  simp only [fanFor, List.mem_filterMap] at ho
  obtain ⟨d, hd, hf⟩ := ho
  cases src with
  | none => cases hf
  | some s =>
    have hf' : (if !(s == d) then
        some (⟨st.node_id, some d, ⟨mid, none, .Broadcast v⟩⟩ : Message)
      else none) = some o := hf
    by_cases hs : s = d
    · simp [hs] at hf'
    · have hfd : (if !(s == d) then
          some (⟨st.node_id, some d, ⟨mid, none, .Broadcast v⟩⟩ : Message)
        else none) = some ⟨st.node_id, some d, ⟨mid, none, .Broadcast v⟩⟩ := by
        simp [hs]
      rw [hfd] at hf'
      exact ⟨s, d, rfl, hd, hs, (Option.some_inj.mp hf').symm⟩

/-- C5 amended: for every processed Broadcast envelope the outbound order
is the `BroadcastOk` ack first, then the fanout envelopes (all carrying
the processed value), then the anti-entropy batch (never carrying the
processed value); when the value is not novel the fanout part is empty
(ack then anti-entropy only). -/
theorem c5_amended_emission_order (st : BroadcastMaelstromNode) (src dest : Option String)
    (mid irt : Option Int) (v : Int) :
    ∃ (st' : BroadcastMaelstromNode) (fan ae : List Message),
      process st ⟨src, dest, ⟨mid, irt, .Broadcast v⟩⟩ =
        (st', Except.ok (some (⟨dest, src, ⟨some st.id, mid, .BroadcastOk⟩⟩ :: (fan ++ ae)))) ∧
      (∀ f ∈ fan, f.body.body = BroadcastMessage.Broadcast v) ∧
      (∀ a ∈ ae, ∃ w, a.body.body = BroadcastMessage.Broadcast w ∧ w ≠ v) ∧
      (v ∈ st.messages → fan = []) := by
  rw [process_broadcast_arm]
  by_cases hv : v ∈ st.messages <;>
    simp only [hv, if_true, if_false, ite_true, ite_false]
  · refine ⟨_, [], broadcast_all_seen_messages (seenUpd { st with id := st.id + 1 } src v) v,
      rfl, ?_, ?_, ?_⟩
    · intro f hf; cases hf
    · intro a ha
      obtain ⟨w, hw, hne, _, _⟩ := sweep_bodies _ v a ha
      exact ⟨w, hw, hne⟩
    · intro _; rfl
  · refine ⟨_, fanFor st src mid v,
      broadcast_all_seen_messages (seenUpd { st with id := st.id + 1 } src v) v,
      rfl, ?_, ?_, ?_⟩
    · intro f hf
      obtain ⟨s, d, _, _, _, hfeq⟩ := fanFor_mem st src mid v f hf
      rw [hfeq]
    · intro a ha
      obtain ⟨w, hw, hne, _, _⟩ := sweep_bodies _ v a ha
      exact ⟨w, hw, hne⟩
    · intro hc
      exact hc.elim

/-! C4: fanout on novel values. -/

theorem countTo_cons (o : Message) (l : List Message) (P : String) (val : Int) :
    countTo (o :: l) P val =
      (if o.dest == some P && o.body.body == BroadcastMessage.Broadcast val then 1 else 0) +
        countTo l P val := by
  simp only [countTo, List.filter_cons]
  split <;> simp [Nat.add_comm]

theorem countTo_append (l1 l2 : List Message) (P : String) (val : Int) :
    countTo (l1 ++ l2) P val = countTo l1 P val + countTo l2 P val := by
  simp [countTo, List.filter_append]

theorem countTo_sweep_fm (p : BroadcastMaelstromNode) (fm : Int) (P : String) :
    countTo (broadcast_all_seen_messages p fm) P fm = 0 := by
  have h : (broadcast_all_seen_messages p fm).filter
      (fun o => o.dest == some P && o.body.body == BroadcastMessage.Broadcast fm) = [] := by
    rw [List.filter_eq_nil_iff]
    intro o ho
    obtain ⟨w, hw, hne, _, _⟩ := sweep_bodies p fm o ho
    simp [hw, hne]
  simp [countTo, h]

theorem fanCount (nid : Option String) (s : String) (mid : Option Int) (v : Int) (d : String) :
    ∀ l : List String, l.Nodup →
      countTo (l.filterMap (fun x =>
        if !(s == x) then
          some (⟨nid, some x, ⟨mid, none, BroadcastMessage.Broadcast v⟩⟩ : Message)
        else none)) d v = if d ∈ l ∧ d ≠ s then 1 else 0 := by
  intro l
  induction l with
  | nil => intro _; simp [countTo]
  | cons x rest ih =>
    intro hnd
    have hrest := ih (List.Nodup.of_cons hnd)
    by_cases hsx : s = x
    · have hfx : (if !(s == x) then
          some (⟨nid, some x, ⟨mid, none, BroadcastMessage.Broadcast v⟩⟩ : Message)
        else none) = none := by simp [hsx]
      have hstep : List.filterMap (fun y =>
          if !(s == y) then
            some (⟨nid, some y, ⟨mid, none, BroadcastMessage.Broadcast v⟩⟩ : Message)
          else none) (x :: rest) = List.filterMap (fun y =>
          if !(s == y) then
            some (⟨nid, some y, ⟨mid, none, BroadcastMessage.Broadcast v⟩⟩ : Message)
          else none) rest := List.filterMap_cons_none hfx
      rw [hstep, hrest]
      have hcond : (d ∈ x :: rest ∧ d ≠ s) ↔ (d ∈ rest ∧ d ≠ s) := by
        constructor
        · intro h
          obtain ⟨hm, hne⟩ := h
          rcases List.mem_cons.mp hm with rfl | hm'
          · exact absurd hsx.symm hne
          · exact ⟨hm', hne⟩
        · intro h
          exact ⟨List.mem_cons_of_mem _ h.1, h.2⟩
      rw [if_congr hcond rfl rfl]
    · have hfx : (if !(s == x) then
          some (⟨nid, some x, ⟨mid, none, BroadcastMessage.Broadcast v⟩⟩ : Message)
        else none) = some ⟨nid, some x, ⟨mid, none, BroadcastMessage.Broadcast v⟩⟩ := by
        simp [hsx]
      have hstep : List.filterMap (fun y =>
          if !(s == y) then
            some (⟨nid, some y, ⟨mid, none, BroadcastMessage.Broadcast v⟩⟩ : Message)
          else none) (x :: rest) =
          (⟨nid, some x, ⟨mid, none, BroadcastMessage.Broadcast v⟩⟩ : Message) ::
            List.filterMap (fun y =>
              if !(s == y) then
                some (⟨nid, some y, ⟨mid, none, BroadcastMessage.Broadcast v⟩⟩ : Message)
              else none) rest := List.filterMap_cons_some hfx
      rw [hstep, countTo_cons, hrest]
      by_cases hdx : d = x
      · subst hdx
        have hnotin : d ∉ rest := (List.nodup_cons.mp hnd).1
        have h1 : ¬(d ∈ rest ∧ d ≠ s) := fun h => hnotin h.1
        have h2 : d ∈ d :: rest ∧ d ≠ s := ⟨List.mem_cons_self _ _, fun h => hsx h.symm⟩
        have hpred : ((⟨nid, some d, ⟨mid, none, BroadcastMessage.Broadcast v⟩⟩ : Message).dest ==
            some d && (⟨nid, some d, ⟨mid, none,
              BroadcastMessage.Broadcast v⟩⟩ : Message).body.body ==
            BroadcastMessage.Broadcast v) = true := by simp
        rw [hpred]
        simp [h1, h2, hnotin]
      · have hpred : ((⟨nid, some x, ⟨mid, none, BroadcastMessage.Broadcast v⟩⟩ : Message).dest ==
            some d && (⟨nid, some x, ⟨mid, none,
              BroadcastMessage.Broadcast v⟩⟩ : Message).body.body ==
            BroadcastMessage.Broadcast v) = false := by
          simp only [Bool.and_eq_false_iff]
          left
          simp [beq_iff_eq]
          intro hc
          exact hdx hc.symm
        rw [hpred]
        have hcond : (d ∈ x :: rest ∧ d ≠ s) ↔ (d ∈ rest ∧ d ≠ s) := by
          constructor
          · intro h
            obtain ⟨hm, hne⟩ := h
            rcases List.mem_cons.mp hm with rfl | hm'
            · exact absurd rfl hdx
            · exact ⟨hm', hne⟩
          · intro h
            exact ⟨List.mem_cons_of_mem _ h.1, h.2⟩
        rw [if_congr hcond rfl rfl]
        simp

/-- C4: when a `Broadcast(v)` from sender `s` is novel, the handler emits
exactly one fanout `Broadcast(v)` envelope to every neighbor other than
`s` (and none to `s`), each with empty in_reply_to; when `v` was already
delivered, no outbound envelope carries `v` at all. -/
theorem c4_fanout_exclusion (st : BroadcastMaelstromNode) (s : String) (dest : Option String)
    (mid irt : Option Int) (v : Int) (hnd : st.node_ids.Nodup) :
    ∃ (st' : BroadcastMaelstromNode) (out : List Message),
      process st ⟨some s, dest, ⟨mid, irt, .Broadcast v⟩⟩ = (st', Except.ok (some out)) ∧
      (v ∉ st.messages →
        (∀ d : String, countTo out d v = if d ∈ st.node_ids ∧ d ≠ s then 1 else 0) ∧
        (∀ o ∈ out, o.body.body = BroadcastMessage.Broadcast v →
          o.body.in_reply_to = none ∧ o.dest ≠ some s)) ∧
      (v ∈ st.messages → ∀ o ∈ out, o.body.body ≠ BroadcastMessage.Broadcast v) := by
  rw [process_broadcast_arm]
  by_cases hv : v ∈ st.messages <;>
    simp only [hv, if_true, if_false, ite_true, ite_false]
  · refine ⟨_, _, rfl, ?_, ?_⟩
    · intro h
      exact (h trivial).elim
    · intro _ o ho
      rcases List.mem_cons.mp ho with rfl | ho'
      · intro hc; cases hc
      · obtain ⟨w, hw, hne, _, _⟩ := sweep_bodies _ v o ho'
        rw [hw]
        intro hc
        injection hc with hc
        exact hne hc
  · refine ⟨_, _, rfl, ?_, ?_⟩
    · intro _
      constructor
      · intro d
        rw [countTo_cons, countTo_append, countTo_sweep_fm]
        have hack : ((⟨dest, some s, ⟨some st.id, mid, .BroadcastOk⟩⟩ : Message).dest ==
            some d && (⟨dest, some s, ⟨some st.id, mid,
              .BroadcastOk⟩⟩ : Message).body.body ==
            BroadcastMessage.Broadcast v) = false := by
          simp
        rw [hack]
        have hfan : fanFor st (some s) mid v = st.node_ids.filterMap (fun x =>
            if !(s == x) then
              some (⟨st.node_id, some x, ⟨mid, none, BroadcastMessage.Broadcast v⟩⟩ : Message)
            else none) := rfl
        rw [hfan, fanCount st.node_id s mid v d st.node_ids hnd]
        simp
      · intro o ho hbody
        rcases List.mem_cons.mp ho with rfl | ho'
        · cases hbody
        · rcases List.mem_append.mp ho' with hfan | hprev
          · obtain ⟨s', d', hsrc, _, hne, heq⟩ := fanFor_mem st (some s) mid v o hfan
            injection hsrc with hsrc
            subst hsrc
            rw [heq]
            refine ⟨rfl, ?_⟩
            intro hc
            injection hc with hc
            exact hne hc.symm
          · obtain ⟨w, hw, hne, _, _⟩ := sweep_bodies _ v o hprev
            rw [hw] at hbody
            injection hbody with hc
            exact absurd hc hne
    · intro hc
      exact hc.elim

/-! C2: the anti-entropy sweep. -/

theorem countTo_numberPairs (nid : Option String) (P : String) (val : Int) :
    ∀ (ps : List (String × Int)) (c : Int),
      countTo (numberPairs nid c ps) P val =
        (ps.filter (fun pr => pr.1 == P && pr.2 == val)).length := by
  intro ps
  induction ps with
  | nil => intro c; rfl
  | cons pr rest ih =>
    intro c
    obtain ⟨node, m⟩ := pr
    rw [numberPairs, countTo_cons, ih (c + 1), List.filter_cons]
    by_cases hP : node = P <;> by_cases hm : m = val
    · subst hP; subst hm; simp [Nat.add_comm]
    · subst hP
      have h1 : ((⟨nid, some node, ⟨some c, none,
          BroadcastMessage.Broadcast m⟩⟩ : Message).dest == some node &&
          (⟨nid, some node, ⟨some c, none,
            BroadcastMessage.Broadcast m⟩⟩ : Message).body.body ==
          BroadcastMessage.Broadcast val) = false := by simp [hm]
      have h2 : (((node, m) : String × Int).1 == node &&
          ((node, m) : String × Int).2 == val) = false := by simp [hm]
      rw [h1, h2]
      simp
    · have h1 : ((⟨nid, some node, ⟨some c, none,
          BroadcastMessage.Broadcast m⟩⟩ : Message).dest == some P &&
          (⟨nid, some node, ⟨some c, none,
            BroadcastMessage.Broadcast m⟩⟩ : Message).body.body ==
          BroadcastMessage.Broadcast val) = false := by simp [hP]
      have h2 : (((node, m) : String × Int).1 == P &&
          ((node, m) : String × Int).2 == val) = false := by simp [hP]
      rw [h1, h2]
      simp
    · have h1 : ((⟨nid, some node, ⟨some c, none,
          BroadcastMessage.Broadcast m⟩⟩ : Message).dest == some P &&
          (⟨nid, some node, ⟨some c, none,
            BroadcastMessage.Broadcast m⟩⟩ : Message).body.body ==
          BroadcastMessage.Broadcast val) = false := by simp [hP]
      have h2 : (((node, m) : String × Int).1 == P &&
          ((node, m) : String × Int).2 == val) = false := by simp [hP]
      rw [h1, h2]
      simp

theorem sweepPairs_fst_mem (shared : List (String × List Int)) (messages : List Int)
    (fm : Int) : ∀ pr ∈ sweepPairs shared messages fm, ∃ S, (pr.1, S) ∈ shared := by
  induction shared with
  | nil => intro pr h; cases h
  | cons e rest ih =>
    intro pr h
    obtain ⟨node, s⟩ := e
    rw [sweepPairs, List.mem_append] at h
    rcases h with h | h
    · obtain ⟨m, _, rfl⟩ := List.mem_map.mp h
      exact ⟨s, List.mem_cons_self _ _⟩
    · obtain ⟨S, hS⟩ := ih pr h
      exact ⟨S, List.mem_cons_of_mem _ hS⟩

theorem sweepPairs_count_notkey (messages : List Int) (fm val : Int) (P : String) :
    ∀ shared : List (String × List Int), P ∉ shared.map Prod.fst →
      ((sweepPairs shared messages fm).filter
        (fun pr => pr.1 == P && pr.2 == val)).length = 0 := by
  intro shared
  induction shared with
  | nil => intro _; rfl
  | cons e rest ih =>
    intro hP
    obtain ⟨node, s⟩ := e
    have hnode : node ≠ P := by
      intro hc
      exact hP (by simp [hc])
    have hrest : P ∉ rest.map Prod.fst := by
      intro hc
      exact hP (List.mem_cons_of_mem _ hc)
    rw [sweepPairs, List.filter_append, List.length_append, ih hrest]
    have hhead : ((messages.filter
        (fun m => !(s.contains m) && !(m == fm) && startsN node)).map
          (fun m => (node, m))).filter (fun pr => pr.1 == P && pr.2 == val) = [] := by
      rw [List.filter_eq_nil_iff]
      intro pr hpr
      obtain ⟨m, _, rfl⟩ := List.mem_map.mp hpr
      simp [hnode]
    rw [hhead]
    rfl

theorem length_filter_pair_map (node P : String) (val : Int) :
    ∀ l : List Int,
      ((l.map (fun m => ((node, m) : String × Int))).filter
        (fun pr => pr.1 == P && pr.2 == val)).length =
        (if node = P then (l.filter (fun m => m == val)).length else 0) := by
  intro l
  induction l with
  | nil => simp
  | cons m rest ih =>
    simp only [List.map_cons, List.filter_cons]
    by_cases hP : node = P
    · subst hP
      by_cases hm : m = val <;> simp [hm, ih, Nat.add_comm]
    · by_cases hm : m = val <;> simp [hP, hm, ih]

theorem sweepPairs_count (messages : List Int) (fm val : Int) (P : String)
    (hmsg : messages.Nodup) :
    ∀ shared : List (String × List Int),
      (shared.map Prod.fst).Nodup →
      (∀ e ∈ shared, startsN e.fst = true) →
      ((sweepPairs shared messages fm).filter
        (fun pr => pr.1 == P && pr.2 == val)).length =
        (match lookupShared shared P with
         | some S => if val ∈ messages ∧ val ∉ S ∧ val ≠ fm then 1 else 0
         | none => 0) := by
  intro shared
  induction shared with
  | nil => intro _ _; rfl
  | cons e rest ih =>
    intro hkeys hn
    obtain ⟨node, S⟩ := e
    have hSn : startsN node = true := hn (node, S) (List.mem_cons_self _ _)
    have hkeys' : (rest.map Prod.fst).Nodup := (List.nodup_cons.mp hkeys).2
    have hn' : ∀ e ∈ rest, startsN e.fst = true :=
      fun e he => hn e (List.mem_cons_of_mem _ he)
    rw [sweepPairs, List.filter_append, List.length_append]
    by_cases hnp : node = P
    · subst hnp
      have hnotkey : node ∉ rest.map Prod.fst := (List.nodup_cons.mp hkeys).1
      rw [sweepPairs_count_notkey messages fm val node rest hnotkey]
      have hlk : lookupShared ((node, S) :: rest) node = some S := by
        simp [lookupShared]
      rw [hlk, length_filter_pair_map]
      rw [if_pos rfl]
      have hcnteq : ((messages.filter
          (fun m => !(S.contains m) && !(m == fm) && startsN node)).filter
            (fun m => m == val)).length =
          List.count val (messages.filter
            (fun m => !(S.contains m) && !(m == fm) && startsN node)) := by
        rw [← List.countP_eq_length_filter, List.count]
      by_cases hcond : val ∈ messages ∧ val ∉ S ∧ val ≠ fm
      · have hval : val ∈ messages.filter
            (fun m => !(S.contains m) && !(m == fm) && startsN node) := by
          rw [List.mem_filter]
          refine ⟨hcond.1, ?_⟩
          simp [hSn, hcond.2.1, hcond.2.2]
        have hnodup : (messages.filter
            (fun m => !(S.contains m) && !(m == fm) && startsN node)).Nodup :=
          List.Nodup.filter _ hmsg
        rw [hcnteq, List.count_eq_one_of_mem hnodup hval]
        simp [hcond]
      · have hval : val ∉ messages.filter
            (fun m => !(S.contains m) && !(m == fm) && startsN node) := by
          intro hc
          rw [List.mem_filter] at hc
          refine hcond ⟨hc.1, ?_, ?_⟩
          · intro hcin
            have := hc.2
            simp [hcin] at this
          · intro hceq
            have := hc.2
            simp [hceq] at this
        rw [hcnteq, List.count_eq_zero.mpr hval]
        simp [hcond]
    · have hlk : lookupShared ((node, S) :: rest) P = lookupShared rest P := by
        simp [lookupShared, hnp]
      rw [hlk, ih hkeys' hn']
      have hhead : ((messages.filter
          (fun m => !(S.contains m) && !(m == fm) && startsN node)).map
            (fun m => (node, m))).filter (fun pr => pr.1 == P && pr.2 == val) = [] := by
        rw [List.filter_eq_nil_iff]
        intro pr hpr
        obtain ⟨m, _, rfl⟩ := List.mem_map.mp hpr
        simp [hnp]
      rw [hhead]
      simp


theorem countTo_sweepMsgs (nid : Option String) (c : Int) (messages : List Int)
    (fm : Int) (P : String) (val : Int) :
    ∀ shared : List (String × List Int),
      countTo (sweepMsgs nid c messages fm shared) P val =
        ((sweepPairs shared messages fm).filter
          (fun pr => pr.1 == P && pr.2 == val)).length := by
  intro shared
  induction shared with
  | nil => rfl
  | cons e rest ih =>
    obtain ⟨node, s⟩ := e
    rw [sweepMsgs, sweepPairs, countTo_append, ih, countTo_numberPairs,
      List.filter_append, List.length_append]

/-- C2: on a node whose per-peer-seen map has duplicate-free keys all
naming network peers (ids starting with 'n', the only keys the code ever
creates) and a duplicate-free delivered set, the anti-entropy sweep emits,
for each tracked peer `P` with seen-set `S`, exactly one `Broadcast(val)`
envelope to `P` for every `val` in `delivered \ S` other than the value
being processed — and emits only envelopes addressed to tracked peers
(hence nothing for peers with no recorded seen-set). -/
theorem c2_anti_entropy_sweep (p : BroadcastMaelstromNode) (fm : Int) (P : String) (val : Int)
    (hkeys : (p.messages_shared_per_node.map Prod.fst).Nodup)
    (hn : ∀ e ∈ p.messages_shared_per_node, startsN e.fst = true)
    (hmsg : p.messages.Nodup) :
    countTo (broadcast_all_seen_messages p fm) P val =
      (match lookupShared p.messages_shared_per_node P with
       | some S => if val ∈ p.messages ∧ val ∉ S ∧ val ≠ fm then 1 else 0
       | none => 0) ∧
    ∀ o ∈ broadcast_all_seen_messages p fm,
      ∃ e ∈ p.messages_shared_per_node, o.dest = some e.fst := by
  constructor
  · rw [broadcast_all_seen_messages, countTo_sweepMsgs]
    exact sweepPairs_count p.messages fm val P hmsg p.messages_shared_per_node hkeys hn
  · intro o ho
    obtain ⟨pr, hpr, heq⟩ := mem_sweepMsgs p.node_id p.id p.messages fm
      p.messages_shared_per_node o ho
    obtain ⟨S, hS⟩ := sweepPairs_fst_mem p.messages_shared_per_node p.messages fm pr hpr
    refine ⟨(pr.1, S), hS, ?_⟩
    rw [heq]

/-- Witness for C2 at the spec's own example: delivered `{1,2,3}`, peer
"n2" tracked with seen-set `{1}`, processing value 5: the sweep owes "n2"
the value 2 exactly once. -/
theorem c2_anti_entropy_sweep_witness :
    (countTo (broadcast_all_seen_messages c2State 5) "n2" 2 =
      (match lookupShared c2State.messages_shared_per_node "n2" with
       | some S => if (2 : Int) ∈ c2State.messages ∧ (2 : Int) ∉ S ∧ (2 : Int) ≠ 5 then 1 else 0
       | none => 0) ∧
    ∀ o ∈ broadcast_all_seen_messages c2State 5,
      ∃ e ∈ c2State.messages_shared_per_node, o.dest = some e.fst) :=
  c2_anti_entropy_sweep c2State 5 "n2" 2 (by decide) (by decide) (by decide)

/-! C1 (amended): how outbound envelopes draw ids from the counter. -/

theorem sweep_filter_self (m : Message) (v : Int) (hm : m.body.body = .Broadcast v)
    (p : BroadcastMaelstromNode) :
    (broadcast_all_seen_messages p v).filter (fun o => !(isFanoutOf m o)) =
      broadcast_all_seen_messages p v := by
  rw [List.filter_eq_self]
  intro o ho
  obtain ⟨w, hw, hne, _, _⟩ := sweep_bodies p v o ho
  simp [isFanoutOf, hm, hw, hne]

theorem fan_filter_nil (m : Message) (v : Int) (hm : m.body.body = .Broadcast v)
    (st : BroadcastMaelstromNode) (src : Option String) (mid : Option Int) :
    (fanFor st src mid v).filter (fun o => !(isFanoutOf m o)) = [] := by
  rw [List.filter_eq_nil_iff]
  intro o ho
  obtain ⟨s, d, _, _, _, heq⟩ := fanFor_mem st src mid v o ho
  simp [isFanoutOf, hm, heq]

theorem numberPairs_filter_dest_eq (nid : Option String) (c : Int) (P : String)
    (l : List (String × Int)) (hall : ∀ pr ∈ l, pr.1 = P) :
    (numberPairs nid c l).filter (fun o => o.dest == some P) = numberPairs nid c l := by
  rw [List.filter_eq_self]
  intro o ho
  obtain ⟨pr, hpr, heq⟩ := numberPairs_mem nid l c o ho
  have h1 := hall pr hpr
  rw [heq]
  simp [h1]

theorem numberPairs_filter_dest_ne (nid : Option String) (c : Int) (node P : String)
    (l : List (String × Int)) (hall : ∀ pr ∈ l, pr.1 = node) (hne : node ≠ P) :
    (numberPairs nid c l).filter (fun o => o.dest == some P) = [] := by
  rw [List.filter_eq_nil_iff]
  intro o ho
  obtain ⟨pr, hpr, heq⟩ := numberPairs_mem nid l c o ho
  have h1 := hall pr hpr
  rw [heq]
  simp [h1, hne]

theorem sweepMsgs_filter_notkey (nid : Option String) (c : Int) (messages : List Int)
    (fm : Int) (P : String) :
    ∀ shared : List (String × List Int), P ∉ shared.map Prod.fst →
      (sweepMsgs nid c messages fm shared).filter (fun o => o.dest == some P) = [] := by
  intro shared hP
  rw [List.filter_eq_nil_iff]
  intro o ho
  obtain ⟨pr, hpr, heq⟩ := mem_sweepMsgs nid c messages fm shared o ho
  obtain ⟨S, hS⟩ := sweepPairs_fst_mem shared messages fm pr hpr
  have hkey : pr.1 ∈ shared.map Prod.fst := List.mem_map.mpr ⟨(pr.1, S), hS, rfl⟩
  have hne : pr.1 ≠ P := fun hc => hP (hc ▸ hkey)
  rw [heq]
  simp [hne]

theorem sweepMsgs_ids_exists (nid : Option String) (c : Int) (messages : List Int)
    (fm : Int) (P : String) :
    ∀ shared : List (String × List Int), (shared.map Prod.fst).Nodup →
      ∃ L : Nat, ((sweepMsgs nid c messages fm shared).filter
        (fun o => o.dest == some P)).map (fun o => o.body.msg_id) = consecIds c L := by
  intro shared
  induction shared with
  | nil => intro _; exact ⟨0, rfl⟩
  | cons e rest ih =>
    intro hkeys
    obtain ⟨node, s⟩ := e
    have hkeys' : (rest.map Prod.fst).Nodup := (List.nodup_cons.mp hkeys).2
    rw [sweepMsgs, List.filter_append, List.map_append]
    have hall : ∀ pr ∈ (messages.filter
        (fun m => !(s.contains m) && !(m == fm) && startsN node)).map
          (fun m => ((node, m) : String × Int)), pr.1 = node := by
      intro pr hpr
      obtain ⟨m, _, rfl⟩ := List.mem_map.mp hpr
      rfl
    by_cases hnp : node = P
    · subst hnp
      have hnotkey : node ∉ rest.map Prod.fst := (List.nodup_cons.mp hkeys).1
      rw [sweepMsgs_filter_notkey nid c messages fm node rest hnotkey]
      rw [numberPairs_filter_dest_eq nid c node _ hall, numberPairs_msg_ids]
      refine ⟨((messages.filter
          (fun m => !(s.contains m) && !(m == fm) && startsN node)).map
            (fun m => ((node, m) : String × Int))).length, ?_⟩
      simp
    · rw [numberPairs_filter_dest_ne nid c node P _ hall hnp]
      obtain ⟨L, hL⟩ := ih hkeys'
      exact ⟨L, by simp [hL]⟩

theorem counterIds_process (st : BroadcastMaelstromNode) (m : Message) :
    (process st m).fst.id = st.id + ((counterIds m (outOf st m)).length : Int) ∧
    (∀ o ∈ outOf st m, isFanoutOf m o = true → o.body.msg_id = m.body.msg_id) ∧
    (∀ out : List Message, (process st m).snd = Except.ok (some out) →
      (counterIds m out).head? = some (some st.id)) := by
  obtain ⟨src, dest, bd⟩ := m
  obtain ⟨mid, irt, b⟩ := bd
  cases b with
  | Init nid nids =>
    refine ⟨?_, ?_, ?_⟩
    · simp [outOf, process, counterIds, isFanoutOf]
    · intro o ho hfan
      simp [isFanoutOf] at hfan
    · intro out hout
      simp only [process] at hout
      injection hout with h
      injection h with h
      subst h
      simp [counterIds, isFanoutOf]
  | Read =>
    refine ⟨?_, ?_, ?_⟩
    · simp [outOf, process, counterIds, isFanoutOf]
    · intro o ho hfan
      simp [isFanoutOf] at hfan
    · intro out hout
      simp only [process] at hout
      injection hout with h
      injection h with h
      subst h
      simp [counterIds, isFanoutOf]
  | Topology topo =>
    refine ⟨?_, ?_, ?_⟩
    · cases hsn : st.node_id with
      | none => simp [outOf, process, hsn, counterIds, isFanoutOf]
      | some x =>
        cases hl : lookupTopo topo x <;>
          simp [outOf, process, hsn, hl, counterIds, isFanoutOf]
    · intro o ho hfan
      simp [isFanoutOf] at hfan
    · intro out hout
      cases hsn : st.node_id with
      | none =>
        simp only [process, hsn] at hout
        injection hout with h
        injection h with h
        subst h
        simp [counterIds, isFanoutOf]
      | some x =>
        cases hl : lookupTopo topo x <;> simp only [process, hsn, hl] at hout <;>
          (injection hout with h; injection h with h; subst h;
           simp [counterIds, isFanoutOf])
  | InitOk =>
    refine ⟨?_, ?_, ?_⟩
    · simp [outOf, process, counterIds]
    · intro o ho hfan
      simp [outOf, process] at ho
    · intro out hout
      simp [process] at hout
  | BroadcastOk =>
    refine ⟨?_, ?_, ?_⟩
    · simp [outOf, process, counterIds]
    · intro o ho hfan
      simp [outOf, process] at ho
    · intro out hout
      simp [process] at hout
  | ReadOk msgs =>
    refine ⟨?_, ?_, ?_⟩
    · simp [outOf, process, counterIds]
    · intro o ho hfan
      simp [outOf, process] at ho
    · intro out hout
      simp [process] at hout
  | TopologyOk =>
    refine ⟨?_, ?_, ?_⟩
    · simp [outOf, process, counterIds]
    · intro o ho hfan
      simp [outOf, process] at ho
    · intro out hout
      simp [process] at hout
  | Broadcast v =>
    have hmB : (⟨src, dest, ⟨mid, irt, .Broadcast v⟩⟩ : Message).body.body =
        BroadcastMessage.Broadcast v := rfl
    have hackp : (!(isFanoutOf (⟨src, dest, ⟨mid, irt, .Broadcast v⟩⟩ : Message)
        (⟨dest, src, ⟨some st.id, mid, .BroadcastOk⟩⟩ : Message))) = true := by
      simp [isFanoutOf]
    by_cases hv : v ∈ st.messages
    · have hout : outOf st ⟨src, dest, ⟨mid, irt, .Broadcast v⟩⟩ =
          ⟨dest, src, ⟨some st.id, mid, .BroadcastOk⟩⟩ ::
            broadcast_all_seen_messages (seenUpd { st with id := st.id + 1 } src v) v := by
        rw [outOf, process_broadcast_arm]
        simp [hv]
      have hid : (process st ⟨src, dest, ⟨mid, irt, .Broadcast v⟩⟩).fst.id =
          st.id + 1 + ((broadcast_all_seen_messages
            (seenUpd { st with id := st.id + 1 } src v) v).length : Int) := by
        rw [process_broadcast_arm]
        simp [hv, seenUpd_id]
      have hfilter : (outOf st ⟨src, dest, ⟨mid, irt, .Broadcast v⟩⟩).filter
          (fun o => !(isFanoutOf (⟨src, dest, ⟨mid, irt, .Broadcast v⟩⟩ : Message) o)) =
          ⟨dest, src, ⟨some st.id, mid, .BroadcastOk⟩⟩ ::
            broadcast_all_seen_messages (seenUpd { st with id := st.id + 1 } src v) v := by
        rw [hout, List.filter_cons, hackp]
        simp only [if_true, ite_true]
        rw [sweep_filter_self _ v hmB]
      refine ⟨?_, ?_, ?_⟩
      · rw [hid, counterIds, hfilter]
        simp only [List.length_map, List.length_cons]
        push_cast
        ring
      · intro o ho hfan
        rw [hout] at ho
        rcases List.mem_cons.mp ho with rfl | ho'
        · simp [isFanoutOf] at hfan
        · obtain ⟨w, hw, hne, _, _⟩ := sweep_bodies _ v o ho'
          rw [isFanoutOf] at hfan
          simp only [hw] at hfan
          simp [hne] at hfan
      · intro out hout2
        rw [process_broadcast_arm] at hout2
        simp only [hv, if_true, ite_true] at hout2
        injection hout2 with h
        injection h with h
        subst h
        rw [counterIds, List.filter_cons, hackp]
        simp only [if_true, ite_true, List.map_cons]
        rfl
    · have hout : outOf st ⟨src, dest, ⟨mid, irt, .Broadcast v⟩⟩ =
          ⟨dest, src, ⟨some st.id, mid, .BroadcastOk⟩⟩ ::
            (fanFor st src mid v ++
              broadcast_all_seen_messages (seenUpd { st with id := st.id + 1 } src v) v) := by
        rw [outOf, process_broadcast_arm]
        simp [hv]
      have hid : (process st ⟨src, dest, ⟨mid, irt, .Broadcast v⟩⟩).fst.id =
          st.id + 1 + ((broadcast_all_seen_messages
            (seenUpd { st with id := st.id + 1 } src v) v).length : Int) := by
        rw [process_broadcast_arm]
        simp [hv, seenUpd_id]
      have hfilter : (outOf st ⟨src, dest, ⟨mid, irt, .Broadcast v⟩⟩).filter
          (fun o => !(isFanoutOf (⟨src, dest, ⟨mid, irt, .Broadcast v⟩⟩ : Message) o)) =
          ⟨dest, src, ⟨some st.id, mid, .BroadcastOk⟩⟩ ::
            broadcast_all_seen_messages (seenUpd { st with id := st.id + 1 } src v) v := by
        rw [hout, List.filter_cons, hackp]
        simp only [if_true, ite_true]
        rw [List.filter_append, fan_filter_nil _ v hmB, sweep_filter_self _ v hmB,
          List.nil_append]
      refine ⟨?_, ?_, ?_⟩
      · rw [hid, counterIds, hfilter]
        simp only [List.length_map, List.length_cons]
        push_cast
        ring
      · intro o ho hfan
        rw [hout] at ho
        rcases List.mem_cons.mp ho with rfl | ho'
        · simp [isFanoutOf] at hfan
        · rcases List.mem_append.mp ho' with hofan | hoprev
          · obtain ⟨s, d, _, _, _, heq⟩ := fanFor_mem st src mid v o hofan
            rw [heq]
          · obtain ⟨w, hw, hne, _, _⟩ := sweep_bodies _ v o hoprev
            rw [isFanoutOf] at hfan
            simp only [hw] at hfan
            simp [hne] at hfan
      · intro out hout2
        rw [process_broadcast_arm] at hout2
        simp only [hv, if_false, ite_false] at hout2
        injection hout2 with h
        injection h with h
        subst h
        rw [counterIds, List.filter_cons, hackp]
        simp only [if_true, ite_true, List.map_cons]
        rfl

/-- C1 amended: fanout envelopes consume no id from the counter (they
copy the inbound envelope's msg_id); every other outbound envelope
advances the counter by one, so across any sequence the counter advances
by exactly the number of counter-drawn envelopes; each call's first
counter-drawn envelope (the direct reply) is stamped with the counter's
pre-call value; and within one anti-entropy sweep each tracked peer's
batch is stamped with consecutive ids starting at the sweep's start value
— but every peer's batch restarts at that same value (the per-batch
counter is a copy), so sweep ids repeat across peers rather than being
globally consecutive. -/
theorem c1_amended_counter_ids :
    (∀ (st : BroadcastMaelstromNode) (msgs : List Message),
       (processSeq st msgs).id = st.id + ((counterIdsSeq st msgs).length : Int)) ∧
    (∀ (st : BroadcastMaelstromNode) (m o : Message),
       o ∈ outOf st m → isFanoutOf m o = true → o.body.msg_id = m.body.msg_id) ∧
    (∀ (st st' : BroadcastMaelstromNode) (m : Message) (out : List Message),
       process st m = (st', Except.ok (some out)) →
       (counterIds m out).head? = some (some st.id)) ∧
    (∀ (p : BroadcastMaelstromNode) (fm : Int) (P : String),
       (p.messages_shared_per_node.map Prod.fst).Nodup →
       sweepIdsTo p fm P = consecIds p.id (sweepIdsTo p fm P).length) := by
  refine ⟨?_, ?_, ?_, ?_⟩
  · intro st msgs
    induction msgs generalizing st with
    | nil => simp [processSeq, counterIdsSeq]
    | cons m rest ih =>
      rw [processSeq_cons, counterIdsSeq, List.length_append, ih,
        (counterIds_process st m).1]
      push_cast
      ring
  · intro st m o ho hfan
    exact (counterIds_process st m).2.1 o ho hfan
  · intro st st' m out h
    exact (counterIds_process st m).2.2 out (by rw [h])
  · intro p fm P hkeys
    obtain ⟨L, hL⟩ := sweepMsgs_ids_exists p.node_id p.id p.messages fm P
      p.messages_shared_per_node hkeys
    have hs : sweepIdsTo p fm P = consecIds p.id L := hL
    rw [hs, consecIds_length]

/-- The per-peer restart in action: with two tracked peers each owed one
value, both sweep envelopes carry the same msg_id (the sweep-start value),
while the node counter still advances by the total batch size. -/
example :
    (broadcast_all_seen_messages c1SweepState 99).map (fun o => o.body.msg_id) =
      [some 5, some 5] := by decide


/-! C9: wire round-trip. -/

theorem decodeStrs_encode : ∀ l : List String, decodeStrs (l.map Json.jstr) = some l := by
  intro l
  induction l with
  | nil => rfl
  | cons s rest ih => simp [decodeStrs, ih]

theorem decodeInts_encode : ∀ l : List Int, decodeInts (l.map Json.jnum) = some l := by
  intro l
  induction l with
  | nil => rfl
  | cons n rest ih => simp [decodeInts, ih]

theorem decodeTopoEntries_encode : ∀ t : List (String × List String),
    decodeTopoEntries (t.map (fun e => (e.fst, Json.jarr (e.snd.map Json.jstr)))) = some t := by
  intro t
  induction t with
  | nil => rfl
  | cons e rest ih =>
    obtain ⟨k, ls⟩ := e
    simp [decodeTopoEntries, decodeStrs_encode, ih]

theorem decodePayload_encode (j1 j2 : Json) (b : BroadcastMessage) :
    decodePayload (("msg_id", j1) :: ("in_reply_to", j2) :: encodePayload b) = some b := by
  cases b <;>
    simp [decodePayload, encodePayload, jlookup, decodeStrs_encode, decodeInts_encode,
      decodeTopoEntries_encode]

theorem decodeBody_encode (b : Body) : decodeBody (encodeBody b) = some b := by
  obtain ⟨mid, irt, pb⟩ := b
  cases mid <;> cases irt <;>
    simp [decodeBody, encodeBody, jlookup, decodeOptInt, encodeOptInt, decodePayload_encode]

/-- C9: for every payload variant (hence every envelope `m` of the
broadcast protocol), encoding to the wire representation and decoding
back yields the original envelope. -/
theorem c9_round_trip (m : Message) : decodeMsg (encodeMsg m) = some m := by
  obtain ⟨src, dest, bd⟩ := m
  cases src <;> cases dest <;>
    simp [decodeMsg, encodeMsg, jlookup, decodeOptStr, encodeOptStr, decodeBody_encode]

/-! Witnesses at concrete inputs. -/

/-- Witness for the amended C1: the head counter id at a concrete
Broadcast call, and per-peer consecutive sweep ids at a two-peer state. -/
theorem c1_amended_counter_ids_witness :
    (counterIds c1Msg c1Out).head? = some (some c1State.id) ∧
    sweepIdsTo c1SweepState 99 "n3" =
      consecIds c1SweepState.id (sweepIdsTo c1SweepState 99 "n3").length :=
  ⟨c1_amended_counter_ids.2.2.1 c1State c1PostState c1Msg c1Out (by decide),
   c1_amended_counter_ids.2.2.2 c1SweepState 99 "n3" (by decide)⟩

/-- Witness for C3 at value 3 of the concrete sequence Init then
Broadcast 3. -/
theorem c3_dedup_correctness_witness :
    (3 : Int) ∈ (processSeq node0 [mInit, mB1]).messages ↔
      ∃ m ∈ [mInit, mB1], m.body.body = BroadcastMessage.Broadcast 3 :=
  c3_dedup_correctness.1 [mInit, mB1] 3

/-- Witness for C4: novel Broadcast 5 from "n2" on a node with neighbors
{"n2","n3"}. -/
theorem c4_fanout_exclusion_witness :
    ∃ (st' : BroadcastMaelstromNode) (out : List Message),
      process c4State ⟨some "n2", some "n1", ⟨some 7, none, .Broadcast 5⟩⟩ =
        (st', Except.ok (some out)) ∧
      ((5 : Int) ∉ c4State.messages →
        (∀ d : String, countTo out d 5 = if d ∈ c4State.node_ids ∧ d ≠ "n2" then 1 else 0) ∧
        (∀ o ∈ out, o.body.body = BroadcastMessage.Broadcast 5 →
          o.body.in_reply_to = none ∧ o.dest ≠ some "n2")) ∧
      ((5 : Int) ∈ c4State.messages →
        ∀ o ∈ out, o.body.body ≠ BroadcastMessage.Broadcast 5) :=
  c4_fanout_exclusion c4State "n2" (some "n1") (some 7) none 5 (by decide)

/-- Witness for the amended C5 at the state reached by Init then
Broadcast 3, processing Broadcast 5 from "n2". -/
theorem c5_amended_emission_order_witness :
    ∃ (st' : BroadcastMaelstromNode) (fan ae : List Message),
      process (processSeq node0 [mInit, mB1]) ⟨some "n2", some "n1", ⟨some 9, none, .Broadcast 5⟩⟩ =
        (st', Except.ok (some (⟨some "n1", some "n2",
          ⟨some (processSeq node0 [mInit, mB1]).id, some 9, .BroadcastOk⟩⟩ :: (fan ++ ae)))) ∧
      (∀ f ∈ fan, f.body.body = BroadcastMessage.Broadcast 5) ∧
      (∀ a ∈ ae, ∃ w, a.body.body = BroadcastMessage.Broadcast w ∧ w ≠ 5) ∧
      ((5 : Int) ∈ (processSeq node0 [mInit, mB1]).messages → fan = []) :=
  c5_amended_emission_order (processSeq node0 [mInit, mB1]) (some "n2") (some "n1")
    (some 9) none 5

/-- Witness for C10 at a src-less Broadcast 7 on the default node. -/
theorem c10_broadcast_without_src_witness :
    process node0 ⟨none, some "n1", ⟨some 3, none, .Broadcast 7⟩⟩ =
      ({ node0 with
           id := node0.id + 1 +
             ((broadcast_all_seen_messages { node0 with id := node0.id + 1 } 7).length : Int),
           messages := if (7 : Int) ∈ node0.messages then node0.messages
             else node0.messages ++ [7] },
       Except.ok (some (⟨some "n1", none, ⟨some node0.id, some 3, .BroadcastOk⟩⟩ ::
         broadcast_all_seen_messages { node0 with id := node0.id + 1 } 7))) ∧
    ∀ o ∈ broadcast_all_seen_messages { node0 with id := node0.id + 1 } 7,
      o.body.body ≠ BroadcastMessage.Broadcast 7 :=
  c10_broadcast_without_src node0 (some "n1") (some 3) none 7
